import Mathlib

/-!
Verification of the warelay auto-reply pipeline.

The repository sources in scope are `src/config/config.ts` and
`src/config/sessions.ts`, plus the test suite for the reply pipeline
(`index.test.ts`) and a setup document.  The implementation modules for the
reply builder, the media token extractor, the command queue and the session
manager (`src/auto-reply/*`, `src/media/parse.ts`, `src/process/command-queue.ts`,
`src/utils.ts`) are not part of the provided sources; where a definition below
embeds one of those, its doc comment starts with `Modelled from the spec:` and
the behaviour is additionally pinned by the repository's unit tests, which are
part of the provided sources.

Strings are embedded as `List Char`; machine integers do not occur.
-/

namespace Warelay

/-- Character lists stand in for JavaScript strings. -/
abbrev Str := List Char

/-- Convert a Lean string literal to the embedding's string type. -/
def chs (x : String) : Str := x.data

/-- The backtick character (code 96), built numerically. -/
def backtickC : Char := Char.ofNat 96

/-- The opening curly brace character (code 123). -/
def lbraceC : Char := Char.ofNat 123

/-- The closing curly brace character (code 125). -/
def rbraceC : Char := Char.ofNat 125

/-- JavaScript `\s`-style whitespace test for the characters that occur here. -/
def isWS (c : Char) : Bool := c == ' ' || c == '\n' || c == '\t' || c == '\r'

/-- Leading-whitespace strip (`String.prototype.trimStart`). -/
def trimL (t : Str) : Str := t.dropWhile isWS

/-- Trailing-whitespace strip (`String.prototype.trimEnd`). -/
def trimR (t : Str) : Str := (t.reverse.dropWhile isWS).reverse

/-- Both-ends whitespace strip (`String.prototype.trim`). -/
def trim (t : Str) : Str := trimL (trimR t)

/-- `pat.isPrefixOf t`, written out so proofs can unfold it. -/
def startsWith : Str → Str → Bool
  | [], _ => true
  | _ :: _, [] => false
  | p :: ps, c :: cs => p == c && startsWith ps cs

/-- First-occurrence substring split: `breakOnSub needle hay = some (pre, post)`
when `hay = pre ++ needle ++ post` at the earliest position, `none` when the
needle does not occur. -/
def breakOnSub (needle : Str) : Str → Option (Str × Str)
  | [] => if startsWith needle [] then some ([], []) else none
  | c :: rest =>
    if startsWith needle (c :: rest) then some ([], (c :: rest).drop needle.length)
    else
      match breakOnSub needle rest with
      | some (pre, post) => some (c :: pre, post)
      | none => none

/-- Substring membership test. -/
def containsSub (needle hay : Str) : Bool := (breakOnSub needle hay).isSome

/-- Split a string on a separator character; mirrors `String.prototype.split`. -/
def splitOnChar (sep : Char) : Str → List Str
  | [] => [[]]
  | c :: rest =>
    if c == sep then [] :: splitOnChar sep rest
    else
      match splitOnChar sep rest with
      | [] => [[c]]
      | l :: ls => (c :: l) :: ls

/-- The lines of a string (split on newline). -/
def lines (t : Str) : List Str := splitOnChar '\n' t

/-- Join lines with newlines (inverse of `lines` on newline-free lines). -/
def unlines : List Str → Str
  | [] => []
  | [l] => l
  | l :: ls => l ++ '\n' :: unlines ls

/-! ## Media token extractor

Modelled from the spec: `src/media/parse.ts` (`splitMediaFromOutput`) is not in
the provided sources.  The scanning algorithm follows spec section 4.5 — find the
first line containing the literal `MEDIA:` marker, take the remainder after an
optional run of spaces, unwrap backticks, stop the token at the first whitespace
character, strip trailing non-path punctuation, and accept only a plausible
URL/path — and is pinned by the repository's six media tests. -/

/-- The literal media marker. -/
def mediaMarker : Str := chs "MEDIA:"

/-- Trailing punctuation stripped from a candidate media token (quotes,
brackets, JSON artifacts, sentence punctuation). -/
def isPunct (c : Char) : Bool :=
  [96, 34, 39, 41, 125, 93, 62, 44, 46, 59, 58].any (fun n => c == Char.ofNat n)

/-- Remove trailing punctuation from a candidate token. -/
def stripTrailingPunct (t : Str) : Str := (t.reverse.dropWhile isPunct).reverse

/-- A token is a plausible URL or filesystem path: an http(s) URL or an
absolute/home/relative path. -/
def plausibleTok (tok : Str) : Bool :=
  startsWith (chs "http://") tok || startsWith (chs "https://") tok ||
  (match tok with
   | c :: _ => c == '/' || c == '~'
   | [] => false) ||
  startsWith (chs "./") tok

/-- A candidate token is valid when non-empty, free of embedded whitespace and
plausible as a URL or path. -/
def validTok (tok : Str) : Bool :=
  !tok.isEmpty && tok.all (fun c => !isWS c) && plausibleTok tok

/-- Join the pieces of a marker line that remain once the marker and token are
removed, collapsing the whitespace that surrounded the marker; `none` when
nothing remains (the whole line is dropped). -/
def mkLine (pre post : Str) : Option Str :=
  let a := trimR pre
  let b := trimL post
  if a.isEmpty && b.isEmpty then none
  else if a.isEmpty then some b
  else if b.isEmpty then some a
  else some (a ++ ' ' :: b)

/-- Process the first line containing the marker: returns the replacement line
(`none` drops the line) and the extracted media token (`none` when the
candidate is rejected; the repository's test `ignores invalid MEDIA lines with
whitespace` shows the line is dropped in that case as well). -/
def processLine (l : Str) : Option Str × Option Str :=
  match breakOnSub mediaMarker l with
  | none => (some l, none)
  | some (pre, rest) =>
    match rest.dropWhile (fun c => c == ' ') with
    | [] => (none, none)
    | c0 :: t =>
      if c0 == backtickC then
        let tok := t.takeWhile (fun c => !(c == backtickC))
        let post := (t.dropWhile (fun c => !(c == backtickC))).drop 1
        if validTok tok then (mkLine pre post, some tok) else (none, none)
      else
        let tokRaw := (c0 :: t).takeWhile (fun c => !isWS c)
        let post := (c0 :: t).dropWhile (fun c => !isWS c)
        let tok := stripTrailingPunct tokRaw
        if validTok tok then (mkLine pre post, some tok) else (none, none)

/-- Whether a line contains the media marker. -/
def hasMarker (l : Str) : Bool := (breakOnSub mediaMarker l).isSome

/-- Scan the lines for the first one containing the marker and rewrite it;
later lines are left untouched (only the first occurrence is honored). -/
def goLines : List Str → List Str × Option Str
  | [] => ([], none)
  | l :: rest =>
    if hasMarker l then
      match processLine l with
      | (some nl, u) => (nl :: rest, u)
      | (none, u) => (rest, u)
    else
      ((l :: (goLines rest).1), (goLines rest).2)

/-- Modelled from the spec: `splitMediaFromOutput` of `src/media/parse.ts`.
Extracts the first valid `MEDIA:` token from command output, removing its
marker from the text and trimming the result. -/
def splitMediaFromOutput (t : Str) : Str × Option Str :=
  let r := goLines (lines t)
  (trim (unlines r.1), r.2)

/-! ## Reply outcome classification (timeout / empty output / media) -/

/-- Outcome of running the external command, as surfaced by
`runCommandWithTimeout`: captured stdout/stderr and whether the process was
killed by the timeout. -/
structure RunOutcome where
  stdout : Str
  stderr : Str
  killed : Bool
deriving DecidableEq

/-- A reply: the text to send and an optional media attachment reference. -/
structure ReplyResult where
  text : Str
  mediaUrl : Option Str
deriving DecidableEq

/-- The fixed first line of a timeout reply, with the configured timeout in
seconds interpolated. -/
def baseTimeoutText (n : Nat) : Str :=
  chs "Command timed out after " ++ chs (toString n) ++
    chs "s. Try a shorter prompt or split the request."

/-- The block appended to a timeout reply when partial stdout was captured:
a blank line, the header line, then the first 800 characters of the captured
stdout with a literal ellipsis suffix. -/
def timeoutSnippetBlock (captured : Str) : Str :=
  chs "\n\nPartial output before timeout:\n" ++ captured.take 800 ++ chs "..."

/-- Modelled from the spec: the timeout reply text of the reply builder
(spec section 4.4 step 4, pinned by the two timeout tests). -/
def timeoutText (n : Nat) (captured : Str) : Str :=
  baseTimeoutText n ++ (if captured.isEmpty then [] else timeoutSnippetBlock captured)

/-- The fixed placeholder for a successful command with empty stdout. -/
def noOutputText : Str := chs "(command produced no output)"

/-- Modelled from the spec: outcome classification of the reply builder
(spec section 4.4 steps 4-6).  Timeout produces the timeout text; empty stdout
produces the fixed placeholder; otherwise the trimmed stdout passes through the
media token extractor.  (The JSON output-format branch of step 5 is outside the
claims and not modelled.) -/
def classifyCommandOutcome (timeoutSecs : Nat) (oc : RunOutcome) : ReplyResult :=
  if oc.killed then ⟨timeoutText timeoutSecs oc.stdout, none⟩
  else if (trim oc.stdout).isEmpty then ⟨noOutputText, none⟩
  else
    let r := splitMediaFromOutput (trim oc.stdout)
    ⟨r.1, r.2⟩

/-! ## Command queue

Modelled from the spec: `src/process/command-queue.ts` is not in the provided
sources.  Spec sections 4.6 and 9 describe the queue as an ordered task list
plus a single "currently running" flag, so it is embedded as a labelled
transition system over that state; tasks are identified by naturals and a
finish event carries the task's success flag (a failed or timed-out task
finishes like any other). -/

/-- Queue events: a task arrives, is admitted to run, or finishes with a
success flag (`false` covers failure and timeout). -/
inductive QEv where
  | enq (i : Nat)
  | start (i : Nat)
  | fin (i : Nat) (ok : Bool)
deriving DecidableEq

/-- Queue state: pending tasks in arrival order, the at-most-one running task,
finished tasks with their outcome, and all ids seen (to keep ids unique). -/
structure QState where
  pending : List Nat
  running : Option Nat
  done : List (Nat × Bool)
  seen : List Nat
deriving DecidableEq

/-- The empty queue. -/
def QInit : QState := ⟨[], none, [], []⟩

/-- One queue transition: enqueue appends; a task starts only when nothing is
running and it is the head of the pending list; only the running task can
finish, with any outcome. -/
inductive QStep : QState → QEv → QState → Prop where
  | enq (s : QState) (i : Nat) (h : i ∉ s.seen) :
      QStep s (.enq i) ⟨s.pending ++ [i], s.running, s.done, s.seen ++ [i]⟩
  | start (s : QState) (i : Nat) (rest : List Nat)
      (hr : s.running = none) (hp : s.pending = i :: rest) :
      QStep s (.start i) ⟨rest, some i, s.done, s.seen⟩
  | fin (s : QState) (i : Nat) (ok : Bool) (hr : s.running = some i) :
      QStep s (.fin i ok) ⟨s.pending, none, s.done ++ [(i, ok)], s.seen⟩

/-- Multi-step reachability along a trace of events. -/
inductive QReach : QState → List QEv → QState → Prop where
  | nil (s : QState) : QReach s [] s
  | cons {s s' s'' : QState} {e : QEv} {tr : List QEv} :
      QStep s e s' → QReach s' tr s'' → QReach s (e :: tr) s''

/-- The ids of the `start` events of a trace, in order. -/
def startsOf (tr : List QEv) : List Nat :=
  tr.filterMap (fun e => match e with | .start i => some i | _ => none)

/-- The ids of the `enq` events of a trace, in order. -/
def enqsOf (tr : List QEv) : List Nat :=
  tr.filterMap (fun e => match e with | .enq i => some i | _ => none)

/-- The tasks that are mid-execution after a trace: started but not finished,
computed from the events alone. -/
def activeFrom (acc : List Nat) : List QEv → List Nat
  | [] => acc
  | e :: tr =>
    activeFrom
      (match e with
       | .start i => acc ++ [i]
       | .fin i _ => acc.erase i
       | .enq _ => acc) tr

/-- The option's elements as a list. -/
def optList : Option Nat → List Nat
  | none => []
  | some i => [i]

/-! ## Template renderer and session manager

Modelled from the spec: `src/auto-reply/templating.js` and the session/argv
composition of the reply builder are not in the provided sources (only
`src/config/sessions.ts` is).  Spec sections 4.1, 4.2 and 4.4 plus the session
tests pin the behaviour. -/

/-- Variable lookup for the renderer; unknown keys render as empty string. -/
def lookupVar (vars : List (Str × Str)) (k : Str) : Str :=
  match vars.find? (fun p => p.1 == k) with
  | some p => p.2
  | none => []

/-- Fuel-indexed renderer worker: replaces `[[Key]]`-style double-brace
placeholders by their values (fuel is the input length, enough for one pass;
substituted values are not re-scanned). -/
def renderGo (vars : List (Str × Str)) : Nat → Str → Str
  | 0, t => t
  | _ + 1, [] => []
  | fuel + 1, c :: rest =>
    if c == lbraceC then
      match rest with
      | c2 :: r2 =>
        if c2 == lbraceC then
          match breakOnSub [rbraceC, rbraceC] r2 with
          | some (key, post) => lookupVar vars key ++ renderGo vars fuel post
          | none => c :: renderGo vars fuel rest
        else c :: renderGo vars fuel rest
      | [] => [c]
    else c :: renderGo vars fuel rest

/-- Modelled from the spec: the template renderer (spec section 4.1). -/
def renderT (vars : List (Str × Str)) (t : Str) : Str := renderGo vars t.length t

/-- Session scope: one bucket per sender, or one shared bucket. -/
inductive SScope where
  | perSender
  | global
deriving DecidableEq

/-- One row of the session store (`SessionEntry` of `src/config/sessions.ts`). -/
structure SessionEntry where
  sessionId : Str
  updatedAt : Nat
  systemSent : Bool
deriving DecidableEq

/-- Session configuration (`SessionConfig` of `src/config/config.ts`), with the
spec defaults applied at the use sites (`resetTriggers` defaults to `/new`,
`idleMinutes` to 60, scope to per-sender). -/
structure SessionCfg where
  scope : SScope := .perSender
  resetTriggers : Option (List Str) := none
  idleMinutes : Option Nat := none
  sessionArgNew : List Str := []
  sessionArgResume : List Str := []
  sessionArgBeforeBody : Bool := true
  sendSystemOnce : Bool := false
  sessionIntro : Str := []
deriving DecidableEq

/-- The slice of the inbound message context the session and reply logic read
(`MsgContext`); absent optional fields are empty strings, matching the
JavaScript truthiness tests in the source. -/
structure MsgCtx where
  Body : Str := []
  From : Str := []
  To : Str := []
  MediaPath : Str := []
  MediaUrl : Str := []
  MediaType : Str := []
deriving DecidableEq

/-- Modelled from the spec: `normalizeE164` of `src/utils.ts` (not in the
provided sources) — strip a `whatsapp:` prefix, keep the digits, prepend `+`;
an input with no digits is unparseable and maps to the empty string. -/
def normalizeE164 (x : Str) : Str :=
  let t := if startsWith (chs "whatsapp:") x then x.drop 9 else x
  let ds := t.filter (fun c => c.isDigit)
  if ds.isEmpty then [] else '+' :: ds

/-- `deriveSessionKey` of `src/config/sessions.ts`: the literal `global` bucket
for global scope, else the normalized sender with fallback `unknown`.  The
empty-string test mirrors the JavaScript truthiness of `ctx.From ? ... : ""`
and `from || "unknown"`. -/
def deriveSessionKey (scope : SScope) (ctx : MsgCtx) : Str :=
  if scope = .global then chs "global"
  else
    let f := if ctx.From.isEmpty then [] else normalizeE164 ctx.From
    if f.isEmpty then chs "unknown" else f

/-- Association-list lookup in the session store. -/
def lookupKey (st : List (Str × SessionEntry)) (k : Str) : Option SessionEntry :=
  (st.find? (fun p => p.1 == k)).map Prod.snd

/-- Association-list update in the session store. -/
def putKey (st : List (Str × SessionEntry)) (k : Str) (e : SessionEntry) :
    List (Str × SessionEntry) :=
  (k, e) :: st.filter (fun p => !(p.1 == k))

/-- Find the first configured reset trigger that the (trimmed) body starts
with; the default trigger list is `/new`. -/
def findTrigger (sc : SessionCfg) (trimmedBody : Str) : Option Str :=
  (sc.resetTriggers.getD [chs "/new"]).find? (fun t => startsWith t trimmedBody)

/-- Result of resolving a session for one turn: the updated store, the session
id for this turn, whether it is a fresh session, whether the system preamble
had already been sent before this turn, and the effective body (trigger
stripped on reset). -/
structure SessResult where
  store : List (Str × SessionEntry)
  sessionId : Str
  isNew : Bool
  wasSystemSent : Bool
  effBody : Str
deriving DecidableEq

/-- Modelled from the spec: session resolution (spec section 4.2 steps 1-8).
Reset triggers are checked first on the trimmed body; otherwise an existing
entry within the idle window is reused and anything else mints the supplied
fresh id.  The updated entry is written back under the conversation key, with
`systemSent` set once `sendSystemOnce` is configured. -/
def resolveSession (sc : SessionCfg) (st : List (Str × SessionEntry))
    (ctx : MsgCtx) (now : Nat) (freshId : Str) : SessResult :=
  let key := deriveSessionKey sc.scope ctx
  let trimmed := trim ctx.Body
  let idleMs := (sc.idleMinutes.getD 60) * 60000
  let mk := fun (sid : Str) (isNew : Bool) (sysSent : Bool) (effBody : Str) =>
    SessResult.mk (putKey st key ⟨sid, now, sysSent || sc.sendSystemOnce⟩)
      sid isNew sysSent effBody
  match findTrigger sc trimmed with
  | some t => mk freshId true false (trimL (trimmed.drop t.length))
  | none =>
    match lookupKey st key with
    | some e =>
      if now - e.updatedAt > idleMs then mk freshId true false ctx.Body
      else mk e.sessionId false e.systemSent ctx.Body
    | none => mk freshId true false ctx.Body

/-- The command-mode reply configuration slice the builder reads
(`inbound.reply` of `src/config/config.ts`); `bodyPfx` embeds the source's
`bodyPrefix` field. -/
structure ReplyCfg where
  command : List Str := []
  template : Option Str := none
  bodyPfx : Str := []
  timeoutSeconds : Nat := 600
  session : SessionCfg := {}
deriving DecidableEq

/-- Modelled from the spec: composition of the effective prompt body (spec
section 4.2 step 7 and 4.4 step 1): `bodyPrefix` is prepended, and with
`sendSystemOnce` the intro is prepended on a session's first turn while intro
and prefix are both omitted on later turns. -/
def composeBody (rc : ReplyCfg) (sr : SessResult) : Str :=
  let sc := rc.session
  let base := if sc.sendSystemOnce && sr.wasSystemSent then sr.effBody
              else rc.bodyPfx ++ sr.effBody
  if sc.sendSystemOnce && !sr.wasSystemSent && !sc.sessionIntro.isEmpty then
    sc.sessionIntro ++ chs "\n\n" ++ base
  else base

/-- The placeholder bindings offered to the renderer for one turn. -/
def sessionVars (ctx : MsgCtx) (body : Str) (sid : Str) : List (Str × Str) :=
  [(chs "Body", body), (chs "BodyStripped", body), (chs "From", ctx.From),
   (chs "To", ctx.To), (chs "MediaPath", ctx.MediaPath),
   (chs "MediaUrl", ctx.MediaUrl), (chs "MediaType", ctx.MediaType),
   (chs "SessionId", sid)]

/-- Insert a fragment immediately before the final (prompt) element. -/
def insertBeforeLast (frag : List Str) : List Str → List Str
  | [] => frag
  | [x] => frag ++ [x]
  | x :: y :: rest => x :: insertBeforeLast frag (y :: rest)

/-- Modelled from the spec: command argv assembly (spec section 4.4 steps 1-2
before the assistant-CLI special case): the command tokens are rendered, the
`template` prefix is inserted after the binary (and omitted, like the intro,
on later `sendSystemOnce` turns, as the session tests show), and the rendered
session fragment is inserted before the final prompt element (or appended when
`sessionArgBeforeBody` is false). -/
def buildSessionArgv (rc : ReplyCfg) (ctx : MsgCtx) (sr : SessResult) : List Str :=
  let sc := rc.session
  let body := composeBody rc sr
  let vars := sessionVars ctx body sr.sessionId
  let frag := (if sr.isNew then sc.sessionArgNew else sc.sessionArgResume).map (renderT vars)
  match rc.command with
  | [] => []
  | c0 :: restCmd =>
    let rendered := restCmd.map (renderT vars)
    let withTpl :=
      match rc.template with
      | some tp => if sc.sendSystemOnce && sr.wasSystemSent then rendered else tp :: rendered
      | none => rendered
    c0 :: (if sc.sessionArgBeforeBody then insertBeforeLast frag withTpl else withTpl ++ frag)

/-! ## Assistant-CLI flag injection -/

/-- Claude CLI output formats (`ClaudeOutputFormat`). -/
inductive CFormat where
  | text
  | json
  | streamJson
deriving DecidableEq

/-- The literal spelling of an output format. -/
def fmtStr : CFormat → Str
  | .text => chs "text"
  | .json => chs "json"
  | .streamJson => chs "stream-json"

/-- The known assistant binary name. -/
def claudeBin : Str := chs "claude"

/-- Modelled from the spec: the fixed identity/context preamble prepended to
the prompt when the assistant binary is invoked (working-directory- and
identity-flavored system text, pinned by the flag-injection tests). -/
def claudePreamble : Str :=
  chs "You are Clawd (Claude), a personal assistant running in /Users/steipete/clawd.\n\n"

/-- Whether a print/non-interactive flag is already present. -/
def hasPrintFlag (argv : List Str) : Bool :=
  argv.any (fun a => a == chs "-p" || a == chs "--print")

/-- Whether an output-format flag is already present (split or `=`-joined). -/
def hasFormatFlag (argv : List Str) : Bool :=
  argv.any (fun a => a == chs "--output-format" || startsWith (chs "--output-format=") a)

/-- Prepend a string to the final element of a list. -/
def prependToLast (p : Str) : List Str → List Str
  | [] => []
  | [x] => [p ++ x]
  | x :: y :: rest => x :: prependToLast p (y :: rest)

/-- Modelled from the spec: the assistant-CLI special case (spec section 4.4
step 2): when `command[0]` is the assistant binary, inject a `-p` print flag
and an `--output-format` flag (value `claudeOutputFormat`, defaulting to
`text`) unless already present, and prepend the identity preamble to the final
prompt argument. -/
def ensureClaudeFlags (fmt : Option CFormat) (argv : List Str) : List Str :=
  match argv with
  | [] => []
  | c0 :: rest =>
    if c0 == claudeBin then
      let injected :=
        (if hasPrintFlag argv then [] else [chs "-p"]) ++
        (if hasFormatFlag argv then [] else [chs "--output-format", fmtStr (fmt.getD .text)])
      c0 :: (injected ++ prependToLast claudePreamble rest)
    else argv

/-! ## JSON values, the session store file, and config loading

`loadSessionStore` (src/config/sessions.ts) and `loadConfig`
(src/config/config.ts) read a file and JSON5-parse it; the filesystem and the
JSON5 library are external, so a read-and-parse outcome is the embedded input.
JavaScript's `typeof` classifies arrays (and null) as "object". -/

/-- Parsed JSON values (numbers as integers; no claim depends on fractions). -/
inductive JValue where
  | null
  | bool (b : Bool)
  | num (n : Int)
  | str (t : Str)
  | arr (xs : List JValue)
  | obj (fields : List (Str × JValue))

/-- The JavaScript test `parsed && typeof parsed === "object"`: null is falsy,
arrays and objects have typeof "object", primitives do not. -/
def jsTruthyObject (v : JValue) : Bool :=
  match v with
  | .null => false
  | .arr _ => true
  | .obj _ => true
  | _ => false

/-- `loadSessionStore` of `src/config/sessions.ts` with the `readFileSync` +
`JSON5.parse` pipeline represented by its outcome: any thrown error yields the
empty store; a parsed value passing the truthy-object test is returned as-is by
the unchecked cast, anything else yields the empty store. -/
def loadSessionStore (readParse : Except Unit JValue) : JValue :=
  match readParse with
  | .error _ => .obj []
  | .ok v => if jsTruthyObject v then v else .obj []

/-- Field lookup in a parsed JSON object. -/
def getField (fields : List (Str × JValue)) (k : Str) : Option JValue :=
  (fields.find? (fun p => p.1 == k)).map Prod.snd

/-- Decode `z.string()`. -/
def decStr : JValue → Option Str
  | .str t => some t
  | _ => none

/-- Decode `z.array(z.string())`. -/
def decStrList : JValue → Option (List Str)
  | .arr xs => xs.mapM decStr
  | _ => none

/-- Decode `z.number().positive()` (with `.int()` vacuous on the integer
model). -/
def decPosNum : JValue → Option Int
  | .num n => if 0 < n then some n else none
  | _ => none

/-- Decode `z.boolean()`. -/
def decBool : JValue → Option Bool
  | .bool b => some b
  | _ => none

/-- Decode an optional object key: an absent key is fine (`none`), a present
key must decode (a present `null` fails, as with zod's `.optional()`). -/
def optField (fields : List (Str × JValue)) (k : Str) (dec : JValue → Option α) :
    Option (Option α) :=
  match getField fields k with
  | none => some none
  | some v => (dec v).map some

/-- Decode a required object key. -/
def reqField (fields : List (Str × JValue)) (k : Str) (dec : JValue → Option α) :
    Option α :=
  (getField fields k).bind dec

/-- Reply modes. -/
inductive RMode where
  | text
  | command
deriving DecidableEq

/-- Decode the `mode` literal union. -/
def decMode : JValue → Option RMode
  | .str t =>
    if t == chs "text" then some .text
    else if t == chs "command" then some .command
    else none
  | _ => none

/-- Decode the `claudeOutputFormat` literal union. -/
def decCFormat : JValue → Option CFormat
  | .str t =>
    if t == chs "text" then some .text
    else if t == chs "json" then some .json
    else if t == chs "stream-json" then some .streamJson
    else none
  | _ => none

/-- Decode the session `scope` literal union. -/
def decScope : JValue → Option SScope
  | .str t =>
    if t == chs "per-sender" then some .perSender
    else if t == chs "global" then some .global
    else none
  | _ => none

/-- The validated shape of the nested `session` object of `ReplySchema`. -/
structure ZSession where
  scope : Option SScope
  resetTriggers : Option (List Str)
  idleMinutes : Option Int
  store : Option Str
  sessionArgNew : Option (List Str)
  sessionArgResume : Option (List Str)
  sessionArgBeforeBody : Option Bool
  sendSystemOnce : Option Bool
  sessionIntro : Option Str
deriving DecidableEq

/-- Decode the nested session object of `ReplySchema`. -/
def decodeSession (v : JValue) : Option ZSession :=
  match v with
  | .obj fs => do
    let scope ← optField fs (chs "scope") decScope
    let resetTriggers ← optField fs (chs "resetTriggers") decStrList
    let idleMinutes ← optField fs (chs "idleMinutes") decPosNum
    let store ← optField fs (chs "store") decStr
    let sessionArgNew ← optField fs (chs "sessionArgNew") decStrList
    let sessionArgResume ← optField fs (chs "sessionArgResume") decStrList
    let sessionArgBeforeBody ← optField fs (chs "sessionArgBeforeBody") decBool
    let sendSystemOnce ← optField fs (chs "sendSystemOnce") decBool
    let sessionIntro ← optField fs (chs "sessionIntro") decStr
    pure ⟨scope, resetTriggers, idleMinutes, store, sessionArgNew, sessionArgResume,
          sessionArgBeforeBody, sendSystemOnce, sessionIntro⟩
  | _ => none

/-- The validated shape of `ReplySchema` (`bodyPfx` embeds the source's
`bodyPrefix` key). -/
structure ZReply where
  mode : RMode
  text : Option Str
  command : Option (List Str)
  cwd : Option Str
  template : Option Str
  timeoutSeconds : Option Int
  bodyPfx : Option Str
  mediaUrl : Option Str
  mediaMaxMb : Option Int
  session : Option ZSession
  claudeOutputFormat : Option CFormat
deriving DecidableEq

/-- The field/type checks of `ReplySchema` before its `.refine` step. -/
def decodeReplyRaw (v : JValue) : Option ZReply :=
  match v with
  | .obj fs => do
    let mode ← reqField fs (chs "mode") decMode
    let text ← optField fs (chs "text") decStr
    let command ← optField fs (chs "command") decStrList
    let cwd ← optField fs (chs "cwd") decStr
    let template ← optField fs (chs "template") decStr
    let timeoutSeconds ← optField fs (chs "timeoutSeconds") decPosNum
    let bodyPfx ← optField fs (chs "bodyPrefix") decStr
    let mediaUrl ← optField fs (chs "mediaUrl") decStr
    let mediaMaxMb ← optField fs (chs "mediaMaxMb") decPosNum
    let session ← optField fs (chs "session") decodeSession
    let claudeOutputFormat ← optField fs (chs "claudeOutputFormat") decCFormat
    pure ⟨mode, text, command, cwd, template, timeoutSeconds, bodyPfx, mediaUrl,
          mediaMaxMb, session, claudeOutputFormat⟩
  | _ => none

/-- JavaScript `Boolean(val.text)`: present and non-empty. -/
def truthyStr : Option Str → Bool
  | some t => !t.isEmpty
  | none => false

/-- JavaScript `Boolean(val.command)`: any present array (even empty) is
truthy. -/
def truthyList : Option (List Str) → Bool
  | some _ => true
  | none => false

/-- The `.refine` predicate of `ReplySchema`: text mode requires a truthy
`text`, command mode a truthy `command`. -/
def refineReply (r : ZReply) : Bool :=
  match r.mode with
  | .text => truthyStr r.text
  | .command => truthyList r.command

/-- `ReplySchema` of `src/config/config.ts`: field checks then the refine. -/
def decodeReply (v : JValue) : Option ZReply :=
  match decodeReplyRaw v with
  | some r => if refineReply r then some r else none
  | none => none

/-- Logging levels of the config schema. -/
inductive LogLevel where
  | silent
  | fatal
  | error
  | warn
  | info
  | debug
  | trace
deriving DecidableEq

/-- Decode the logging `level` literal union. -/
def decLogLevel : JValue → Option LogLevel
  | .str t =>
    if t == chs "silent" then some .silent
    else if t == chs "fatal" then some .fatal
    else if t == chs "error" then some .error
    else if t == chs "warn" then some .warn
    else if t == chs "info" then some .info
    else if t == chs "debug" then some .debug
    else if t == chs "trace" then some .trace
    else none
  | _ => none

/-- The validated `logging` object. -/
structure ZLogging where
  level : Option LogLevel
  file : Option Str
deriving DecidableEq

/-- Decode the `logging` object. -/
def decodeLogging (v : JValue) : Option ZLogging :=
  match v with
  | .obj fs => do
    let level ← optField fs (chs "level") decLogLevel
    let file ← optField fs (chs "file") decStr
    pure ⟨level, file⟩
  | _ => none

/-- The validated `transcribeAudio` object (its `command` is required). -/
structure ZTranscribe where
  command : List Str
  timeoutSeconds : Option Int
deriving DecidableEq

/-- Decode the `transcribeAudio` object. -/
def decodeTranscribe (v : JValue) : Option ZTranscribe :=
  match v with
  | .obj fs => do
    let command ← reqField fs (chs "command") decStrList
    let timeoutSeconds ← optField fs (chs "timeoutSeconds") decPosNum
    pure ⟨command, timeoutSeconds⟩
  | _ => none

/-- The validated `inbound` object. -/
structure ZInbound where
  allowFrom : Option (List Str)
  transcribeAudio : Option ZTranscribe
  reply : Option ZReply
deriving DecidableEq

/-- Decode the `inbound` object. -/
def decodeInbound (v : JValue) : Option ZInbound :=
  match v with
  | .obj fs => do
    let allowFrom ← optField fs (chs "allowFrom") decStrList
    let transcribeAudio ← optField fs (chs "transcribeAudio") decodeTranscribe
    let reply ← optField fs (chs "reply") decodeReply
    pure ⟨allowFrom, transcribeAudio, reply⟩
  | _ => none

/-- The validated top-level `WarelaySchema` shape. -/
structure ZWarelay where
  logging : Option ZLogging
  inbound : Option ZInbound
deriving DecidableEq

/-- Decode the top-level config object (`WarelaySchema.safeParse`); non-objects
(including arrays) fail. -/
def decodeWarelay (v : JValue) : Option ZWarelay :=
  match v with
  | .obj fs => do
    let logging ← optField fs (chs "logging") decodeLogging
    let inbound ← optField fs (chs "inbound") decodeInbound
    pure ⟨logging, inbound⟩
  | _ => none

/-- The empty configuration returned on every failure path. -/
def emptyZW : ZWarelay := ⟨none, none⟩

/-- The observable on-disk states of the config file as `loadConfig` reaches
them: absent file, a read that throws, a JSON5 parse that throws, or a parsed
value. -/
inductive ConfigFile where
  | missing
  | readFailed
  | parseFailed
  | parsed (v : JValue)

/-- `loadConfig` of `src/config/config.ts`: every failure (missing file, read
error, parse error, non-object parse, schema rejection) falls back to the
empty configuration; only a schema-valid object is returned. -/
def loadConfig (f : ConfigFile) : ZWarelay :=
  match f with
  | .missing => emptyZW
  | .readFailed => emptyZW
  | .parseFailed => emptyZW
  | .parsed v =>
    if jsTruthyObject v then
      match decodeWarelay v with
      | some c => c
      | none => emptyZW
    else emptyZW

/-! ## Helper lemmas -/

theorem startsWith_append_self : ∀ (p t : Str), startsWith p (p ++ t) = true := by
  intro p
  induction p with
  | nil => intro t; rfl
  | cons c cs ih => intro t; simp [startsWith, ih]

theorem breakOnSub_of_self (needle rest : Str) (h : needle ≠ []) :
    breakOnSub needle (needle ++ rest) = some ([], rest) := by
  cases needle with
  | nil => exact absurd rfl h
  | cons n ns =>
    have hsw : startsWith (n :: ns) (n :: (ns ++ rest)) = true :=
      startsWith_append_self (n :: ns) rest
    have hdrop : List.drop (n :: ns).length (n :: (ns ++ rest)) = rest :=
      List.drop_left (n :: ns) rest
    show breakOnSub (n :: ns) (n :: (ns ++ rest)) = some ([], rest)
    rw [breakOnSub, if_pos hsw, hdrop]

theorem hasMarker_marker (rest : Str) : hasMarker (mediaMarker ++ rest) = true := by
  rw [hasMarker, breakOnSub_of_self mediaMarker rest (by decide)]
  rfl

theorem goLines_skip : ∀ (L1 tail : List Str), (∀ l ∈ L1, hasMarker l = false) →
    goLines (L1 ++ tail) = (L1 ++ (goLines tail).1, (goLines tail).2) := by
  intro L1
  induction L1 with
  | nil => intro tail _; simp
  | cons x xs ih =>
    intro tail h
    have hx : hasMarker x = false := h x (List.mem_cons_self x xs)
    have hrest : ∀ l ∈ xs, hasMarker l = false :=
      fun l hl => h l (List.mem_cons_of_mem x hl)
    have h2 : goLines (x :: (xs ++ tail)) =
        (x :: (goLines (xs ++ tail)).1, (goLines (xs ++ tail)).2) := by
      rw [goLines, if_neg (by rw [hx]; exact Bool.false_ne_true)]
    calc goLines ((x :: xs) ++ tail)
        = (x :: (goLines (xs ++ tail)).1, (goLines (xs ++ tail)).2) := h2
      _ = (x :: (xs ++ (goLines tail).1), (goLines tail).2) := by
          rw [ih tail hrest]
      _ = ((x :: xs) ++ (goLines tail).1, (goLines tail).2) := by
          simp

theorem takeWhile_of_all {p : Char → Bool} : ∀ {l : Str}, l.all p = true →
    l.takeWhile p = l := by
  intro l h
  exact List.takeWhile_eq_self_iff.mpr (by simpa [List.all_eq_true] using h)

theorem dropWhile_of_all {p : Char → Bool} : ∀ {l : Str}, l.all p = true →
    l.dropWhile p = [] := by
  intro l h
  exact List.dropWhile_eq_nil_iff.mpr (by simpa [List.all_eq_true] using h)

theorem plausible_head (c : Char) (cs : Str) (h : plausibleTok (c :: cs) = true) :
    (c == ' ') = false ∧ (c == backtickC) = false := by
  simp only [plausibleTok, startsWith, Bool.or_eq_true, Bool.and_eq_true,
    beq_iff_eq] at h
  rcases h with ((⟨hc, _⟩ | ⟨hc, _⟩) | (hc | hc)) | ⟨hc, _⟩ <;> subst hc <;> decide

/-! ## C7 — conversation key derivation -/

/-- C7: for every message context and session scope, the derived conversation
key is the literal "global" when scope is global, otherwise the normalized
E.164 form of the context's From address, falling back to the literal
"unknown" when From is absent or unparseable. -/
theorem derive_session_key_spec (scope : SScope) (ctx : MsgCtx) :
    (scope = .global → deriveSessionKey scope ctx = chs "global") ∧
    (scope = .perSender →
      ((ctx.From = [] ∨ normalizeE164 ctx.From = []) →
        deriveSessionKey scope ctx = chs "unknown") ∧
      (ctx.From ≠ [] → normalizeE164 ctx.From ≠ [] →
        deriveSessionKey scope ctx = normalizeE164 ctx.From)) := by
  constructor
  · intro h; subst h; rfl
  · intro h; subst h
    constructor
    · rintro (h1 | h1)
      · simp [deriveSessionKey, h1]
      · by_cases he : ctx.From = []
        · simp [deriveSessionKey, he]
        · simp [deriveSessionKey, List.isEmpty_iff, he, h1]
    · intro h1 h2
      simp [deriveSessionKey, List.isEmpty_iff, h1, h2]

/-- Witness for C7 at the repository's session-test sender. -/
theorem derive_session_key_spec_witness :
    deriveSessionKey .perSender { From := chs "+1555" } = normalizeE164 (chs "+1555") :=
  ((derive_session_key_spec .perSender { From := chs "+1555" }).2 rfl).2
    (by decide) (by decide)

/-! ## C8 — session store loading -/

/-- C8 counterexample: a store file parsing to a JSON array (a non-object in
JSON terms, but `typeof [] === "object"` in JavaScript) is returned by the
unchecked cast instead of the empty mapping claimed. -/
theorem load_session_store_array_cex :
    loadSessionStore (Except.ok (JValue.arr [JValue.num 1])) ≠ JValue.obj [] := by
  intro h
  exact JValue.noConfusion h

/-- C8 amended: loading with a failed read/parse, or a parse result that is
null, boolean, number or string, yields the empty mapping; an array — being of
JavaScript typeof "object" — is returned as-is, and an object file loads as
the parsed mapping. -/
theorem load_session_store_cases (r : Except Unit JValue) :
    (∀ u, r = .error u → loadSessionStore r = .obj []) ∧
    (r = .ok .null → loadSessionStore r = .obj []) ∧
    (∀ b, r = .ok (.bool b) → loadSessionStore r = .obj []) ∧
    (∀ n, r = .ok (.num n) → loadSessionStore r = .obj []) ∧
    (∀ t, r = .ok (.str t) → loadSessionStore r = .obj []) ∧
    (∀ xs, r = .ok (.arr xs) → loadSessionStore r = .arr xs) ∧
    (∀ m, r = .ok (.obj m) → loadSessionStore r = .obj m) := by
  refine ⟨fun u h => ?_, fun h => ?_, fun b h => ?_, fun n h => ?_,
    fun t h => ?_, fun xs h => ?_, fun m h => ?_⟩ <;> subst h <;> rfl

/-- Witness for C8 on a well-formed object store. -/
theorem load_session_store_cases_witness :
    loadSessionStore (.ok (.obj [(chs "a", .num 2)])) = .obj [(chs "a", .num 2)] :=
  (load_session_store_cases _).2.2.2.2.2.2 _ rfl

/-! ## C10 — config loading is total and fails closed -/

/-- C10: every failure state of the config file (missing, unreadable,
unparseable, non-object parse, schema rejection) loads as the empty
configuration, and a non-empty result can only come from a schema-valid
parsed object. -/
theorem load_config_total (f : ConfigFile) :
    ((f = .missing ∨ f = .readFailed ∨ f = .parseFailed) → loadConfig f = emptyZW) ∧
    (∀ v, f = .parsed v → jsTruthyObject v = false → loadConfig f = emptyZW) ∧
    (∀ v, f = .parsed v → decodeWarelay v = none → loadConfig f = emptyZW) ∧
    (loadConfig f ≠ emptyZW →
      ∃ v, f = .parsed v ∧ decodeWarelay v = some (loadConfig f)) := by
  cases f with
  | missing =>
    refine ⟨fun _ => rfl, fun v h => ?_, fun v h => ?_, fun h => absurd rfl h⟩ <;>
      exact ConfigFile.noConfusion h
  | readFailed =>
    refine ⟨fun _ => rfl, fun v h => ?_, fun v h => ?_, fun h => absurd rfl h⟩ <;>
      exact ConfigFile.noConfusion h
  | parseFailed =>
    refine ⟨fun _ => rfl, fun v h => ?_, fun v h => ?_, fun h => absurd rfl h⟩ <;>
      exact ConfigFile.noConfusion h
  | parsed v =>
    refine ⟨fun h => ?_, fun v' hv ht => ?_, fun v' hv hd => ?_, fun h => ?_⟩
    · rcases h with h | h | h <;> exact ConfigFile.noConfusion h
    · cases ConfigFile.parsed.inj hv
      simp [loadConfig, ht]
    · cases ConfigFile.parsed.inj hv
      cases ht : jsTruthyObject v <;> simp [loadConfig, ht, hd]
    · cases ht : jsTruthyObject v with
      | false => exact absurd (by simp [loadConfig, ht]) h
      | true =>
        cases hd : decodeWarelay v with
        | none => exact absurd (by simp [loadConfig, ht, hd]) h
        | some c => exact ⟨v, rfl, by simp [loadConfig, ht, hd]⟩

/-- Witness for C10 on a missing file and a non-object (string) parse. -/
theorem load_config_total_witness :
    loadConfig .missing = emptyZW ∧ loadConfig (.parsed (.str (chs "x"))) = emptyZW :=
  ⟨(load_config_total .missing).1 (Or.inl rfl),
   (load_config_total (.parsed (.str (chs "x")))).2.1 _ rfl rfl⟩

/-! ## C9 — the reply schema invariant -/

/-- C9 counterexample: the validator accepts a reply config with BOTH `text`
and `command` populated (the refine only checks the mode-matching field), so
"exactly one of text/command is populated" fails. -/
theorem reply_schema_exactly_one_cex :
    ∃ v r, decodeReply v = some r ∧ r.mode = RMode.text ∧
      r.text.isSome = true ∧ r.command.isSome = true :=
  ⟨.obj [(chs "mode", .str (chs "text")), (chs "text", .str (chs "hi")),
         (chs "command", .arr [.str (chs "x")])],
   ⟨.text, some (chs "hi"), some [chs "x"], none, none, none, none, none, none,
    none, none⟩,
   by exact ⟨rfl, rfl, rfl, rfl⟩⟩

/-- C9 amended: every reply config accepted by the validator has the
mode-matching field populated — a non-empty `text` for mode=text, a present
`command` for mode=command — though the other field may also be present. -/
theorem reply_schema_mode_field (v : JValue) (r : ZReply)
    (h : decodeReply v = some r) :
    (r.mode = .text → ∃ t, r.text = some t ∧ t ≠ []) ∧
    (r.mode = .command → ∃ c, r.command = some c) := by
  unfold decodeReply at h
  split at h
  next r0 heq =>
    split at h
    next hc =>
      obtain rfl := Option.some.inj h
      constructor
      · intro hm
        simp only [refineReply, hm] at hc
        cases ht : r0.text with
        | none => rw [ht] at hc; exact Bool.noConfusion hc
        | some t =>
          rw [ht] at hc
          exact ⟨t, rfl, by simpa [truthyStr, List.isEmpty_iff] using hc⟩
      · intro hm
        simp only [refineReply, hm] at hc
        cases hcm : r0.command with
        | none => rw [hcm] at hc; exact Bool.noConfusion hc
        | some c => exact ⟨c, rfl⟩
    next hc => exact Option.noConfusion h
  next heq => exact Option.noConfusion h

/-- Witness for C9 on an accepted text-mode config. -/
theorem reply_schema_mode_field_witness :
    ((ZReply.mk .text (some (chs "hi")) none none none none none none none none
        none).mode = .text →
      ∃ t, (ZReply.mk .text (some (chs "hi")) none none none none none none none
        none none).text = some t ∧ t ≠ []) ∧
    ((ZReply.mk .text (some (chs "hi")) none none none none none none none none
        none).mode = .command →
      ∃ c, (ZReply.mk .text (some (chs "hi")) none none none none none none none
        none none).command = some c) :=
  reply_schema_mode_field (.obj [(chs "mode", .str (chs "text")),
    (chs "text", .str (chs "hi"))]) _ rfl

/-! ## C1 — timeout reply formatting -/

/-- C1 counterexample: with a short (non-empty) captured stdout, the timeout
reply text DOES contain the full partial stdout — `take 800` of a 2-character
string is the whole string — so "never the full partial stdout" fails as
stated, even though the claimed snippet block is present. -/
theorem timeout_reply_cex :
    (chs "ok" ≠ []) ∧
    containsSub (chs "\n\nPartial output before timeout:\n" ++ (chs "ok").take 800
        ++ chs "...")
      ((classifyCommandOutcome 5 ⟨chs "ok", [], true⟩).text) = true ∧
    containsSub (chs "ok") ((classifyCommandOutcome 5 ⟨chs "ok", [], true⟩).text)
      = true := by
  refine ⟨by decide, by decide, by decide⟩

/-- C1 amended: the timeout reply text is exactly the fixed base message with
the configured seconds interpolated; when partial stdout was captured and is
non-empty it is followed by the two-line block whose snippet is exactly the
first 800 characters of the captured stdout (a prefix of it, of length at most
800) with a literal ellipsis suffix; no media attachment is produced. -/
theorem timeout_reply_formats (n : Nat) (captured : Str) :
    ((classifyCommandOutcome n ⟨captured, [], true⟩).text =
      baseTimeoutText n ++
        (if captured.isEmpty then [] else timeoutSnippetBlock captured)) ∧
    (captured ≠ [] → ∃ snip, timeoutSnippetBlock captured =
      chs "\n\nPartial output before timeout:\n" ++ snip ++ chs "..." ∧
      snip = captured.take 800 ∧ snip.length ≤ 800 ∧ snip <+: captured) ∧
    (classifyCommandOutcome n ⟨captured, [], true⟩).mediaUrl = none := by
  refine ⟨rfl, fun _ => ?_, rfl⟩
  exact ⟨captured.take 800, by simp [timeoutSnippetBlock],
    rfl, List.length_take_le 800 captured, List.take_prefix 800 captured⟩

/-- Witness for C1 at the configured 42-second timeout with non-empty partial
stdout. -/
theorem timeout_reply_formats_witness :
    ∃ snip, timeoutSnippetBlock (chs "abc") =
      chs "\n\nPartial output before timeout:\n" ++ snip ++ chs "..." ∧
      snip = (chs "abc").take 800 ∧ snip.length ≤ 800 ∧ snip <+: chs "abc" :=
  (timeout_reply_formats 42 (chs "abc")).2.1 (by decide)

/-! ## C6 — assistant-CLI flag injection -/

theorem prependToLast_concat (p x : Str) : ∀ (mid : List Str),
    prependToLast p (mid ++ [x]) = mid ++ [p ++ x] := by
  intro mid
  induction mid with
  | nil => rfl
  | cons a mid ih =>
    cases mid with
    | nil => rfl
    | cons b mid2 =>
      show a :: prependToLast p ((b :: mid2) ++ [x]) = a :: ((b :: mid2) ++ [p ++ x])
      rw [ih]

/-- C6: for a command whose head is the assistant binary and whose final
element is the prompt, the builder's argv contains a print/non-interactive
flag, contains the `--output-format` flag followed by `claudeOutputFormat`
(default `text`) whenever none was present, and ends with the identity
preamble prepended to the prompt (the prompt stays the final element). -/
theorem claude_flag_injection (fmt : Option CFormat) (mid : List Str) (prompt : Str)
    (hp1 : prompt ≠ chs "-p") (hp2 : prompt ≠ chs "--print") :
    ((chs "-p") ∈ ensureClaudeFlags fmt (claudeBin :: (mid ++ [prompt])) ∨
     (chs "--print") ∈ ensureClaudeFlags fmt (claudeBin :: (mid ++ [prompt]))) ∧
    (hasFormatFlag (claudeBin :: (mid ++ [prompt])) = false →
      [chs "--output-format", fmtStr (fmt.getD .text)] <:+:
        ensureClaudeFlags fmt (claudeBin :: (mid ++ [prompt]))) ∧
    (ensureClaudeFlags fmt (claudeBin :: (mid ++ [prompt]))).getLast? =
      some (claudePreamble ++ prompt) := by
  have hout : ensureClaudeFlags fmt (claudeBin :: (mid ++ [prompt])) =
      claudeBin ::
        (((if hasPrintFlag (claudeBin :: (mid ++ [prompt])) then [] else [chs "-p"]) ++
          (if hasFormatFlag (claudeBin :: (mid ++ [prompt])) then []
           else [chs "--output-format", fmtStr (fmt.getD .text)])) ++
         (mid ++ [claudePreamble ++ prompt])) := by
    simp only [ensureClaudeFlags, beq_self_eq_true, if_true, prependToLast_concat]
  refine ⟨?_, ?_, ?_⟩
  · by_cases hpf : hasPrintFlag (claudeBin :: (mid ++ [prompt])) = true
    · obtain ⟨a, ha, hab⟩ := List.any_eq_true.mp hpf
      have hab' : a = chs "-p" ∨ a = chs "--print" := by
        have hab2 := hab
        simp only [Bool.or_eq_true, beq_iff_eq] at hab2
        exact hab2
      have hmem : a ∈ mid := by
        rcases List.mem_cons.mp ha with h | h
        · subst h
          rcases hab' with h | h <;> exact absurd h (by decide)
        · rcases List.mem_append.mp h with h2 | h2
          · exact h2
          · have hpe : a = prompt := List.mem_singleton.mp h2
            subst hpe
            rcases hab' with h | h
            · exact absurd h hp1
            · exact absurd h hp2
      rcases hab' with h | h
      · exact Or.inl (by
          rw [hout]
          exact List.mem_cons_of_mem _ (List.mem_append_right _
            (List.mem_append_left _ (h ▸ hmem))))
      · exact Or.inr (by
          rw [hout]
          exact List.mem_cons_of_mem _ (List.mem_append_right _
            (List.mem_append_left _ (h ▸ hmem))))
    · left
      rw [hout, if_neg hpf]
      simp
  · intro hff
    rw [hout, hff]
    by_cases hpf : hasPrintFlag (claudeBin :: (mid ++ [prompt])) = true
    · rw [if_pos hpf]
      exact ⟨[claudeBin], mid ++ [claudePreamble ++ prompt], by simp⟩
    · rw [if_neg hpf]
      exact ⟨[claudeBin, chs "-p"], mid ++ [claudePreamble ++ prompt], by simp⟩
  · rw [hout]
    have hsplit : claudeBin ::
        (((if hasPrintFlag (claudeBin :: (mid ++ [prompt])) then [] else [chs "-p"]) ++
          (if hasFormatFlag (claudeBin :: (mid ++ [prompt])) then []
           else [chs "--output-format", fmtStr (fmt.getD .text)])) ++
         (mid ++ [claudePreamble ++ prompt])) =
        (claudeBin ::
          (((if hasPrintFlag (claudeBin :: (mid ++ [prompt])) then [] else [chs "-p"]) ++
            (if hasFormatFlag (claudeBin :: (mid ++ [prompt])) then []
             else [chs "--output-format", fmtStr (fmt.getD .text)])) ++ mid)) ++
          [claudePreamble ++ prompt] := by
      simp
    rw [hsplit, List.getLast?_concat]

/-- Witness for C6 on the repository's flag-injection test command. -/
theorem claude_flag_injection_witness :
    ((chs "-p") ∈ ensureClaudeFlags (some .text)
        (claudeBin :: ([chs "--model", chs "m"] ++ [chs "hi"])) ∨
     (chs "--print") ∈ ensureClaudeFlags (some .text)
        (claudeBin :: ([chs "--model", chs "m"] ++ [chs "hi"]))) ∧
    (hasFormatFlag (claudeBin :: ([chs "--model", chs "m"] ++ [chs "hi"])) = false →
      [chs "--output-format", fmtStr ((some CFormat.text).getD .text)] <:+:
        ensureClaudeFlags (some .text)
          (claudeBin :: ([chs "--model", chs "m"] ++ [chs "hi"]))) ∧
    (ensureClaudeFlags (some .text)
        (claudeBin :: ([chs "--model", chs "m"] ++ [chs "hi"]))).getLast? =
      some (claudePreamble ++ chs "hi") :=
  claude_flag_injection (some .text) [chs "--model", chs "m"] (chs "hi")
    (by decide) (by decide)

/-! ## C5 — reset trigger then plain message share a session -/

theorem lookupKey_putKey (st : List (Str × SessionEntry)) (k : Str)
    (e : SessionEntry) : lookupKey (putKey st k e) k = some e := by
  simp [lookupKey, putKey, List.find?_cons, beq_self_eq_true]

theorem key_from_eq (sc : SScope) {c1 c2 : MsgCtx} (h : c1.From = c2.From) :
    deriveSessionKey sc c1 = deriveSessionKey sc c2 := by
  cases sc <;> simp [deriveSessionKey, h]

theorem infixRefl (l : List Str) : l <:+: l := ⟨[], [], by simp⟩

theorem infixConsOf (a : Str) {l xs : List Str} (h : l <:+: xs) :
    l <:+: a :: xs := by
  obtain ⟨s, t, rfl⟩ := h
  exact ⟨a :: s, t, rfl⟩

theorem infixAppendRight (l f : List Str) : f <:+: l ++ f := ⟨l, [], by simp⟩

theorem infix_insertBeforeLast : ∀ (xs frag : List Str),
    frag <:+: insertBeforeLast frag xs := by
  intro xs
  induction xs with
  | nil => intro frag; exact infixRefl frag
  | cons x xs ih =>
    intro frag
    cases xs with
    | nil => exact ⟨[], [x], by simp [insertBeforeLast]⟩
    | cons y ys =>
      show frag <:+: x :: insertBeforeLast frag (y :: ys)
      exact infixConsOf x (ih frag)

/-- C5: when the first turn's body starts with a configured reset trigger and
the second turn is a plain message from the same sender within the idle
window, the first turn mints the supplied fresh id with the trigger (and its
following whitespace) stripped from the body, the second turn reuses exactly
that id, and the two argvs contain the rendered `sessionArgNew` resp.
`sessionArgResume` fragments (rendered with the turn's session id bound). -/
theorem session_reset_then_resume
    (rc : ReplyCfg) (ctx1 ctx2 : MsgCtx) (st : List (Str × SessionEntry))
    (t1 t2 : Nat) (id1 id2 : Str) (trig c0 : Str) (restCmd : List Str)
    (hcmd : rc.command = c0 :: restCmd)
    (htrig : findTrigger rc.session (trim ctx1.Body) = some trig)
    (hplain : findTrigger rc.session (trim ctx2.Body) = none)
    (hfrom : ctx2.From = ctx1.From)
    (hidle : ¬ (t2 - t1 > (rc.session.idleMinutes.getD 60) * 60000)) :
    (resolveSession rc.session st ctx1 t1 id1).sessionId = id1 ∧
    (resolveSession rc.session st ctx1 t1 id1).isNew = true ∧
    (resolveSession rc.session st ctx1 t1 id1).effBody =
      trimL ((trim ctx1.Body).drop trig.length) ∧
    (resolveSession rc.session (resolveSession rc.session st ctx1 t1 id1).store
        ctx2 t2 id2).sessionId = id1 ∧
    (resolveSession rc.session (resolveSession rc.session st ctx1 t1 id1).store
        ctx2 t2 id2).isNew = false ∧
    (rc.session.sessionArgNew.map (renderT (sessionVars ctx1
        (composeBody rc (resolveSession rc.session st ctx1 t1 id1))
        (resolveSession rc.session st ctx1 t1 id1).sessionId))) <:+:
      buildSessionArgv rc ctx1 (resolveSession rc.session st ctx1 t1 id1) ∧
    (rc.session.sessionArgResume.map (renderT (sessionVars ctx2
        (composeBody rc (resolveSession rc.session
          (resolveSession rc.session st ctx1 t1 id1).store ctx2 t2 id2))
        (resolveSession rc.session
          (resolveSession rc.session st ctx1 t1 id1).store ctx2 t2 id2).sessionId)))
      <:+:
      buildSessionArgv rc ctx2 (resolveSession rc.session
        (resolveSession rc.session st ctx1 t1 id1).store ctx2 t2 id2) := by
  have hsr1 : resolveSession rc.session st ctx1 t1 id1 =
      SessResult.mk
        (putKey st (deriveSessionKey rc.session.scope ctx1)
          ⟨id1, t1, false || rc.session.sendSystemOnce⟩)
        id1 true false (trimL ((trim ctx1.Body).drop trig.length)) := by
    simp only [resolveSession, htrig]
  have hstore : (resolveSession rc.session st ctx1 t1 id1).store =
      putKey st (deriveSessionKey rc.session.scope ctx1)
        ⟨id1, t1, false || rc.session.sendSystemOnce⟩ := by
    rw [hsr1]
  have hkey : deriveSessionKey rc.session.scope ctx2 =
      deriveSessionKey rc.session.scope ctx1 := key_from_eq _ hfrom
  have hsr2 : resolveSession rc.session
      (putKey st (deriveSessionKey rc.session.scope ctx1)
        ⟨id1, t1, false || rc.session.sendSystemOnce⟩) ctx2 t2 id2 =
      SessResult.mk
        (putKey
          (putKey st (deriveSessionKey rc.session.scope ctx1)
            ⟨id1, t1, false || rc.session.sendSystemOnce⟩)
          (deriveSessionKey rc.session.scope ctx1)
          ⟨id1, t2, (false || rc.session.sendSystemOnce) || rc.session.sendSystemOnce⟩)
        id1 false (false || rc.session.sendSystemOnce) ctx2.Body := by
    simp only [resolveSession, hplain, hkey, lookupKey_putKey, if_neg hidle]
  refine ⟨?_, ?_, ?_, ?_, ?_, ?_, ?_⟩
  · rw [hsr1]
  · rw [hsr1]
  · rw [hsr1]
  · rw [hstore, hsr2]
  · rw [hstore, hsr2]
  · rw [hsr1]
    simp only [buildSessionArgv, hcmd]
    cases hbb : rc.session.sessionArgBeforeBody
    · simp only [hbb, Bool.false_eq_true, if_false]
      exact infixConsOf _ (infixAppendRight _ _)
    · simp only [hbb, if_true]
      exact infixConsOf _ (infix_insertBeforeLast _ _)
  · rw [hstore, hsr2]
    simp only [buildSessionArgv, hcmd]
    cases hbb : rc.session.sessionArgBeforeBody
    · simp only [hbb, Bool.false_eq_true, if_false]
      exact infixConsOf _ (infixAppendRight _ _)
    · simp only [hbb, if_true]
      exact infixConsOf _ (infix_insertBeforeLast _ _)

/-- Witness for C5 on the repository's session-store test configuration. -/
theorem session_reset_then_resume_witness :
    (resolveSession
        { resetTriggers := some [chs "/new"],
          sessionArgNew := [chs "--sid", chs "\x7b\x7bSessionId\x7d\x7d"],
          sessionArgResume := [chs "--resume", chs "\x7b\x7bSessionId\x7d\x7d"] }
        [] { Body := chs "/new hello", From := chs "+1555", To := chs "+1666" }
        0 (chs "session-123")).sessionId = chs "session-123" ∧
    (resolveSession
        { resetTriggers := some [chs "/new"],
          sessionArgNew := [chs "--sid", chs "\x7b\x7bSessionId\x7d\x7d"],
          sessionArgResume := [chs "--resume", chs "\x7b\x7bSessionId\x7d\x7d"] }
        (resolveSession
          { resetTriggers := some [chs "/new"],
            sessionArgNew := [chs "--sid", chs "\x7b\x7bSessionId\x7d\x7d"],
            sessionArgResume := [chs "--resume", chs "\x7b\x7bSessionId\x7d\x7d"] }
          [] { Body := chs "/new hello", From := chs "+1555", To := chs "+1666" }
          0 (chs "session-123")).store
        { Body := chs "next", From := chs "+1555", To := chs "+1666" }
        1000 (chs "other")).sessionId = chs "session-123" ∧
    buildSessionArgv
      { command := [chs "echo", chs "\x7b\x7bBody\x7d\x7d"],
        template := some (chs "[tmpl]"),
        session :=
          { resetTriggers := some [chs "/new"],
            sessionArgNew := [chs "--sid", chs "\x7b\x7bSessionId\x7d\x7d"],
            sessionArgResume := [chs "--resume", chs "\x7b\x7bSessionId\x7d\x7d"] } }
      { Body := chs "/new hello", From := chs "+1555", To := chs "+1666" }
      (resolveSession
        { resetTriggers := some [chs "/new"],
          sessionArgNew := [chs "--sid", chs "\x7b\x7bSessionId\x7d\x7d"],
          sessionArgResume := [chs "--resume", chs "\x7b\x7bSessionId\x7d\x7d"] }
        [] { Body := chs "/new hello", From := chs "+1555", To := chs "+1666" }
        0 (chs "session-123")) =
      [chs "echo", chs "[tmpl]", chs "--sid", chs "session-123", chs "hello"] := by
  have h := session_reset_then_resume
    { command := [chs "echo", chs "\x7b\x7bBody\x7d\x7d"],
      template := some (chs "[tmpl]"),
      session :=
        { resetTriggers := some [chs "/new"],
          sessionArgNew := [chs "--sid", chs "\x7b\x7bSessionId\x7d\x7d"],
          sessionArgResume := [chs "--resume", chs "\x7b\x7bSessionId\x7d\x7d"] } }
    { Body := chs "/new hello", From := chs "+1555", To := chs "+1666" }
    { Body := chs "next", From := chs "+1555", To := chs "+1666" }
    [] 0 1000 (chs "session-123") (chs "other") (chs "/new")
    (chs "echo") [chs "\x7b\x7bBody\x7d\x7d"]
    rfl (by decide) (by decide) rfl (by decide)
  exact ⟨h.1, h.2.2.2.1, by decide⟩

/-! ## C3 / C4 — media token extraction -/

theorem processLine_valid (url : Str)
    (hpl : plausibleTok url = true)
    (hws : url.all (fun c => !isWS c) = true)
    (hpunct : stripTrailingPunct url = url) :
    processLine (mediaMarker ++ url) = (none, some url) := by
  have hbrk : breakOnSub mediaMarker (mediaMarker ++ url) = some ([], url) :=
    breakOnSub_of_self mediaMarker url (by decide)
  cases url with
  | nil => exact absurd hpl (by decide)
  | cons c cs =>
    obtain ⟨hsp, hbt⟩ := plausible_head c cs hpl
    simp only [processLine, hbrk]
    have hdw : (c :: cs).dropWhile (fun x => x == ' ') = c :: cs := by
      rw [List.dropWhile_cons, if_neg]
      rw [hsp]
      exact Bool.false_ne_true
    rw [hdw]
    have htw : (c :: cs).takeWhile (fun x => !isWS x) = c :: cs :=
      takeWhile_of_all hws
    have hdw2 : (c :: cs).dropWhile (fun x => !isWS x) = [] :=
      dropWhile_of_all hws
    have hv : validTok (c :: cs) = true := by
      simp [validTok, hws, hpl]
    simp only [hbt, Bool.false_eq_true, if_false, htw, hdw2, hpunct, hv, if_true]
    rfl

theorem goLines_marker (l : Str) (rest : List Str) (hm : hasMarker l = true) :
    goLines (l :: rest) =
      (match processLine l with
       | (some nl, u) => (nl :: rest, u)
       | (none, u) => (rest, u)) := by
  rw [goLines, if_pos hm]

/-- C3 counterexample: on the repository's own inline-token test
(`A = "caption before "`, `url = "/tmp/pic.png"`, `B = " caption after"`, all
side conditions of the claim satisfied), extraction collapses the whitespace
that surrounded the marker, so the returned text is NOT `trim(A + B)` (which
keeps a double space). -/
theorem media_left_inverse_cex :
    (chs "caption before " ≠ []) ∧ (chs " caption after" ≠ []) ∧
    (chs "/tmp/pic.png").all (fun c => !isWS c) = true ∧
    splitMediaFromOutput (chs "caption before " ++ mediaMarker ++
        chs "/tmp/pic.png" ++ chs " caption after") =
      (chs "caption before caption after", some (chs "/tmp/pic.png")) ∧
    splitMediaFromOutput (chs "caption before " ++ mediaMarker ++
        chs "/tmp/pic.png" ++ chs " caption after") ≠
      (trim (chs "caption before " ++ chs " caption after"),
       some (chs "/tmp/pic.png")) := by
  refine ⟨by decide, by decide, by decide, by decide, by decide⟩

/-- C3 amended: when the first marker occurrence sits on its own line
(`A` ends with a newline and `B` starts with one, expressed as the line
decomposition `L1 ++ ["MEDIA:" ++ url] ++ L2` with no marker in `L1`) and the
token is a plausible whitespace-free URL/path without trailing punctuation,
extraction returns exactly the remaining lines rejoined and trimmed — i.e.
`trim(A + B)` with the blank-line artifact of the removed marker line
collapsed — paired with the url; only that first occurrence is rewritten. -/
theorem media_marker_line_extraction (t0 : Str) (L1 L2 : List Str) (url : Str)
    (hsplit : lines t0 = L1 ++ (mediaMarker ++ url) :: L2)
    (hfree : ∀ l ∈ L1, hasMarker l = false)
    (hpl : plausibleTok url = true)
    (hws : url.all (fun c => !isWS c) = true)
    (hpunct : stripTrailingPunct url = url) :
    splitMediaFromOutput t0 = (trim (unlines (L1 ++ L2)), some url) := by
  have hproc := processLine_valid url hpl hws hpunct
  have hm : hasMarker (mediaMarker ++ url) = true := hasMarker_marker url
  have hg : goLines ((mediaMarker ++ url) :: L2) = (L2, some url) := by
    rw [goLines_marker _ _ hm, hproc]
  simp only [splitMediaFromOutput, hsplit,
    goLines_skip L1 ((mediaMarker ++ url) :: L2) hfree, hg]

/-- Witness for C3 on the repository's `splitMediaFromOutput` unit test. -/
theorem media_marker_line_extraction_witness :
    splitMediaFromOutput (chs "line1\nMEDIA:https://x/y.png\nline2") =
      (chs "line1\nline2", some (chs "https://x/y.png")) := by
  have h := media_marker_line_extraction
    (chs "line1\nMEDIA:https://x/y.png\nline2")
    [chs "line1"] [chs "line2"] (chs "https://x/y.png")
    (by decide) (by decide) (by decide) (by decide) (by decide)
  exact h.trans (by decide)

theorem processLine_invalid (rest : Str)
    (hbt : (rest.dropWhile (fun c => c == ' ')).head? ≠ some backtickC)
    (htok : validTok (stripTrailingPunct
      ((rest.dropWhile (fun c => c == ' ')).takeWhile (fun c => !isWS c))) = false) :
    processLine (mediaMarker ++ rest) = (none, none) := by
  have hbrk : breakOnSub mediaMarker (mediaMarker ++ rest) = some ([], rest) :=
    breakOnSub_of_self mediaMarker rest (by decide)
  simp only [processLine, hbrk]
  cases hdw : rest.dropWhile (fun c => c == ' ') with
  | nil => rfl
  | cons c0 t =>
    rw [hdw] at htok hbt
    have hb : (c0 == backtickC) = false := by
      cases hcb : c0 == backtickC
      · rfl
      · have hce : c0 = backtickC := beq_iff_eq.mp hcb
        exact absurd (by simp [hce]) hbt
    simp only [hb, Bool.false_eq_true, if_false, htok]

/-- C4 counterexample: on the repository's invalid-token test input, the
returned mediaUrl is indeed undefined, but the text does NOT preserve the
original verbatim — the whole marker line is dropped (the test expects
`"hello\nrest"`). -/
theorem media_invalid_token_cex :
    (splitMediaFromOutput (chs "hello\nMEDIA: not a url with spaces\nrest\n")).2
      = none ∧
    (splitMediaFromOutput (chs "hello\nMEDIA: not a url with spaces\nrest\n")).1
      ≠ chs "hello\nMEDIA: not a url with spaces\nrest\n" ∧
    (splitMediaFromOutput (chs "hello\nMEDIA: not a url with spaces\nrest\n")).1
      = chs "hello\nrest" := by
  refine ⟨by decide, by decide, by decide⟩

/-- C4 amended: when the first marker line's candidate token is rejected
(non-backtick candidate whose first whitespace-delimited word, after trailing
punctuation strip, is not a valid token), no mediaUrl is produced, and the
returned text is the input with that entire marker line removed (remaining
lines preserved, result trimmed) — not the original text verbatim. -/
theorem media_invalid_token_drops_line (t0 : Str) (L1 L2 : List Str) (rest : Str)
    (hsplit : lines t0 = L1 ++ (mediaMarker ++ rest) :: L2)
    (hfree : ∀ l ∈ L1, hasMarker l = false)
    (hbt : (rest.dropWhile (fun c => c == ' ')).head? ≠ some backtickC)
    (htok : validTok (stripTrailingPunct
      ((rest.dropWhile (fun c => c == ' ')).takeWhile (fun c => !isWS c))) = false) :
    splitMediaFromOutput t0 = (trim (unlines (L1 ++ L2)), none) := by
  have hproc := processLine_invalid rest hbt htok
  have hm : hasMarker (mediaMarker ++ rest) = true := hasMarker_marker rest
  have hg : goLines ((mediaMarker ++ rest) :: L2) = (L2, none) := by
    rw [goLines_marker _ _ hm, hproc]
  simp only [splitMediaFromOutput, hsplit,
    goLines_skip L1 ((mediaMarker ++ rest) :: L2) hfree, hg]

/-- Witness for C4 on the repository's invalid-token test input. -/
theorem media_invalid_token_drops_line_witness :
    splitMediaFromOutput (chs "hello\nMEDIA: not a url with spaces\nrest\n") =
      (chs "hello\nrest", none) := by
  have h := media_invalid_token_drops_line
    (chs "hello\nMEDIA: not a url with spaces\nrest\n")
    [chs "hello"] [chs "rest", chs ""] (chs " not a url with spaces")
    (by decide) (by decide) (by decide) (by decide)
  exact h.trans (by decide)

/-! ## C2 — queue serialization -/

theorem qreach_active (s0 : QState) (tr : List QEv) (s1 : QState)
    (h : QReach s0 tr s1) :
    activeFrom (optList s0.running) tr = optList s1.running := by
  induction h with
  | nil s => rfl
  | cons hstep htail ih =>
    cases hstep with
    | enq i hni => simpa [activeFrom] using ih
    | start i rest hr hp =>
      rw [hr]
      simpa [activeFrom, optList] using ih
    | fin i ok hr =>
      rw [hr]
      simpa [activeFrom, optList, List.erase_cons_head] using ih

theorem qreach_split (p : List QEv) : ∀ (s0 s1 : QState) (q : List QEv),
    QReach s0 (p ++ q) s1 → ∃ m, QReach s0 p m := by
  induction p with
  | nil => intro s0 _ _ _; exact ⟨s0, QReach.nil s0⟩
  | cons e p ih =>
    intro s0 s1 q h
    cases h with
    | cons hstep htail =>
      obtain ⟨m, hm⟩ := ih _ s1 q htail
      exact ⟨m, QReach.cons hstep hm⟩

theorem qreach_conserve (s0 : QState) (tr : List QEv) (s1 : QState)
    (h : QReach s0 tr s1) :
    s1.done.map Prod.fst ++ optList s1.running ++ s1.pending =
      s0.done.map Prod.fst ++ optList s0.running ++ s0.pending ++ enqsOf tr := by
  induction h with
  | nil s => simp [enqsOf]
  | cons hstep htail ih =>
    cases hstep with
    | enq i hni =>
      rw [ih]
      simp [enqsOf, List.filterMap_cons]
    | start i rest hr hp =>
      rw [ih, hr, hp]
      simp [enqsOf, List.filterMap_cons, optList]
    | fin i ok hr =>
      rw [ih, hr]
      simp [enqsOf, List.filterMap_cons, optList]

theorem startsOf_cons_enq (i : Nat) (tr : List QEv) :
    startsOf (QEv.enq i :: tr) = startsOf tr := by
  simp [startsOf, List.filterMap_cons]

theorem startsOf_cons_start (i : Nat) (tr : List QEv) :
    startsOf (QEv.start i :: tr) = i :: startsOf tr := by
  simp [startsOf, List.filterMap_cons]

theorem startsOf_cons_fin (i : Nat) (ok : Bool) (tr : List QEv) :
    startsOf (QEv.fin i ok :: tr) = startsOf tr := by
  simp [startsOf, List.filterMap_cons]

theorem enqsOf_cons_enq (i : Nat) (tr : List QEv) :
    enqsOf (QEv.enq i :: tr) = i :: enqsOf tr := by
  simp [enqsOf, List.filterMap_cons]

theorem enqsOf_cons_start (i : Nat) (tr : List QEv) :
    enqsOf (QEv.start i :: tr) = enqsOf tr := by
  simp [enqsOf, List.filterMap_cons]

theorem enqsOf_cons_fin (i : Nat) (ok : Bool) (tr : List QEv) :
    enqsOf (QEv.fin i ok :: tr) = enqsOf tr := by
  simp [enqsOf, List.filterMap_cons]

theorem qreach_starts (s0 : QState) (tr : List QEv) (s1 : QState)
    (h : QReach s0 tr s1) :
    startsOf tr ++ s1.pending = s0.pending ++ enqsOf tr := by
  induction h with
  | nil s => simp [startsOf, enqsOf]
  | cons hstep htail ih =>
    cases hstep with
    | enq i hni =>
      rw [startsOf_cons_enq, enqsOf_cons_enq, ih]
      simp
    | start i rest hr hp =>
      rw [startsOf_cons_start, enqsOf_cons_start, hp]
      simp only [List.cons_append]
      rw [ih]
    | fin i ok hr =>
      rw [startsOf_cons_fin, enqsOf_cons_fin, ih]

/-- C2: along every trace of the queue's transition system from the empty
queue, (1) at most one task is mid-execution at every instant (over every
trace prefix), (2) the start order is a prefix of the arrival order — strict
FIFO, regardless of which conversation submitted — (3) when the queue is
quiescent every enqueued task has finished with some outcome, a predecessor's
failure notwithstanding, and (4) a non-quiescent queue can always take a step
(no deadlock). -/
theorem command_queue_fifo (tr : List QEv) (s : QState) (h : QReach QInit tr s) :
    (∀ p q, tr = p ++ q → (activeFrom [] p).length ≤ 1) ∧
    startsOf tr <+: enqsOf tr ∧
    ((s.pending = [] ∧ s.running = none) →
      ∀ i ∈ enqsOf tr, ∃ ok, (i, ok) ∈ s.done) ∧
    ((s.pending ≠ [] ∨ s.running ≠ none) → ∃ e s2, QStep s e s2) := by
  refine ⟨?_, ?_, ?_, ?_⟩
  · intro p q hpq
    subst hpq
    obtain ⟨m, hm⟩ := qreach_split p QInit s q h
    have hact := qreach_active QInit p m hm
    rw [show optList QInit.running = [] from rfl] at hact
    rw [hact]
    cases m.running <;> simp [optList]
  · have hstarts := qreach_starts QInit tr s h
    refine ⟨s.pending, ?_⟩
    simpa [QInit] using hstarts
  · rintro ⟨hp, hr⟩ i hi
    have hc := qreach_conserve QInit tr s h
    rw [hp, hr] at hc
    simp [optList, QInit] at hc
    rw [← hc] at hi
    obtain ⟨⟨i', ok⟩, hmem, hfst⟩ := List.mem_map.mp hi
    exact ⟨ok, hfst ▸ hmem⟩
  · intro hor
    cases hrun : s.running with
    | some i => exact ⟨.fin i true, _, QStep.fin s i true hrun⟩
    | none =>
      cases hpend : s.pending with
      | nil =>
        rcases hor with hp | hr
        · exact absurd hpend hp
        · exact absurd hrun hr
      | cons i rest =>
        exact ⟨.start i, _, QStep.start s i rest hrun hpend⟩

/-- Witness for C2 on a concrete two-task trace in which the first task fails
and the second still runs to completion. -/
theorem command_queue_fifo_witness :
    startsOf [QEv.enq 0, QEv.enq 1, QEv.start 0, QEv.fin 0 false, QEv.start 1,
        QEv.fin 1 true] <+:
      enqsOf [QEv.enq 0, QEv.enq 1, QEv.start 0, QEv.fin 0 false, QEv.start 1,
        QEv.fin 1 true] ∧
    ∀ i ∈ enqsOf [QEv.enq 0, QEv.enq 1, QEv.start 0, QEv.fin 0 false,
        QEv.start 1, QEv.fin 1 true],
      ∃ ok, (i, ok) ∈ (QState.mk [] none [(0, false), (1, true)] [0, 1]).done := by
  have hreach : QReach QInit
      [QEv.enq 0, QEv.enq 1, QEv.start 0, QEv.fin 0 false, QEv.start 1,
        QEv.fin 1 true]
      (QState.mk [] none [(0, false), (1, true)] [0, 1]) := by
    refine QReach.cons (QStep.enq QInit 0 (by decide)) ?_
    refine QReach.cons (QStep.enq _ 1 (by decide)) ?_
    refine QReach.cons (QStep.start _ 0 [1] rfl rfl) ?_
    refine QReach.cons (QStep.fin _ 0 false rfl) ?_
    refine QReach.cons (QStep.start _ 1 [] rfl rfl) ?_
    refine QReach.cons (QStep.fin _ 1 true rfl) ?_
    exact QReach.nil _
  have h := command_queue_fifo _ _ hreach
  exact ⟨h.2.1, h.2.2.1 ⟨rfl, rfl⟩⟩

end Warelay
